import Mathlib

/-
Shallow embedding of the type-level utilities in src/generics.ts.

The repository contains only compile-time TypeScript type aliases.  We embed
the fragment of TypeScript's structural type system the utilities live in:

  * `Ty` is the syntax of types: `string`, `number`, string-literal types,
    `unknown`, `never`, unions, intersections, object types (a list of
    members, each a name, a member type and an optional-flag, plus a flag
    recording a `[key: string]: unknown` index signature), mutable array
    types `T[]`, tuple types (with a `readonly` flag) and the nominal
    `Brand` marker.
  * `Value` is the syntax of the literal values a type-checker classifies:
    strings, numbers, object literals (a list of key/value entries), array
    literals, and strings carrying a nominal brand tag (the checker's view
    of a value of a branded type; at runtime it is a plain string).
  * `accepts t v` is the checking judgment "the literal value `v` is
    accepted where type `t` is required".  It is assignability
    (`assign`, width-structural, intersections check both sides, unions
    check either side) combined with TypeScript's excess-property check on
    object literals (`freshOk`): a key of an object literal must be a known
    member name of the target, where the known names and index signatures
    of an intersection or union target are pooled across its constituents.
    Lookup of a member in an object literal takes the first entry with the
    key (duplicate keys in a literal are an error in TypeScript, so the
    choice is immaterial).  The model has no `undefined`: an optional
    member is one that may be absent.
-/

namespace TsUtils

inductive Ty where
  | str : Ty
  | num : Ty
  | lit : String → Ty
  | unknown : Ty
  | never : Ty
  | union : Ty → Ty → Ty
  | inter : Ty → Ty → Ty
  | obj : List (String × Ty × Bool) → Bool → Ty
  | arr : Ty → Ty
  | tuple : List Ty → Bool → Ty
  | brand : Ty → Ty

/-- A member of an object type: name, member type, and whether it is
optional (`true` means the member may be absent). -/
abbrev Field := String × Ty × Bool

inductive Value where
  | vstr : String → Value
  | vnum : Int → Value
  | vobj : List (String × Value) → Value
  | varr : List Value → Value
  | vbranded : String → Ty → Value

mutual

/-- Structural (syntactic) equality test on types, used to compare the
nominal tags of branded values. -/
def tyBeq : Ty → Ty → Bool
  | .str, .str => true
  | .num, .num => true
  | .lit s, .lit s' => s == s'
  | .unknown, .unknown => true
  | .never, .never => true
  | .union a b, .union a' b' => tyBeq a a' && tyBeq b b'
  | .inter a b, .inter a' b' => tyBeq a a' && tyBeq b b'
  | .obj fs i, .obj fs' i' => fieldsBeq fs fs' && i == i'
  | .arr e, .arr e' => tyBeq e e'
  | .tuple ts r, .tuple ts' r' => tysBeq ts ts' && r == r'
  | .brand b, .brand b' => tyBeq b b'
  | _, _ => false
termination_by a b => sizeOf a + sizeOf b

def fieldsBeq : List Field → List Field → Bool
  | [], [] => true
  | (n, t, o) :: fs, (n', t', o') :: fs' =>
      n == n' && tyBeq t t' && o == o' && fieldsBeq fs fs'
  | _, _ => false
termination_by a b => sizeOf a + sizeOf b

def tysBeq : List Ty → List Ty → Bool
  | [], [] => true
  | t :: ts, t' :: ts' => tyBeq t t' && tysBeq ts ts'
  | _, _ => false
termination_by a b => sizeOf a + sizeOf b

end

/-- The member names a target type is known to have, pooled across the
constituents of intersections and unions (this is the name set
TypeScript's excess-property check uses). -/
def objKeys : Ty → List String
  | .obj fs _ => fs.map (fun f => f.1)
  | .inter a b => objKeys a ++ objKeys b
  | .union a b => objKeys a ++ objKeys b
  | _ => []

/-- Whether the target type has a string index signature, pooled across
intersections and unions. -/
def hasIdx : Ty → Bool
  | .obj _ i => i
  | .inter a b => hasIdx a || hasIdx b
  | .union a b => hasIdx a || hasIdx b
  | _ => false

/-- Excess-property check: every key of an object literal must be a known
member name of the target unless the target has an index signature.
Non-object values are never "fresh objects", so they pass. -/
def freshOk (t : Ty) : Value → Bool
  | .vobj entries => hasIdx t || entries.all (fun e => decide (e.1 ∈ objKeys t))
  | _ => true

mutual

/-- The checking judgment: assignability plus the excess-property check. -/
def accepts (t : Ty) (v : Value) : Bool :=
  assign t v && freshOk t v
termination_by (sizeOf t + sizeOf v, 1)

/-- Structural assignability of a value to a type (width subtyping on
objects: extra keys are ignored here; they are the excess-property
check's concern). A branded string is a string. -/
def assign : Ty → Value → Bool
  | .str, .vstr _ => true
  | .str, .vbranded _ _ => true
  | .num, .vnum _ => true
  | .lit s, .vstr s' => s == s'
  | .unknown, _ => true
  | .union a b, v => assign a v || assign b v
  | .inter a b, v => assign a v && assign b v
  | .obj fs _, .vobj entries => acceptsFields fs entries
  | .arr e, .varr vs => acceptsAll e vs
  | .tuple ts _, .varr vs => acceptsTuple ts vs
  | .brand b, .vbranded _ b' => tyBeq b b'
  | _, _ => false
termination_by t v => (sizeOf t + sizeOf v, 0)

/-- Every declared member of an object type is satisfied by the entries of
an object literal. -/
def acceptsFields : List Field → List (String × Value) → Bool
  | [], _ => true
  | (n, t, o) :: rest, entries =>
      acceptsField t o n entries && acceptsFields rest entries
termination_by fs entries => (sizeOf fs + sizeOf entries, 0)

/-- One declared member: if an entry with its name is present its value
must be accepted by the member type; if absent the member must be
optional. -/
def acceptsField (t : Ty) (o : Bool) (n : String) : List (String × Value) → Bool
  | [] => o
  | (k, w) :: rest => if k == n then accepts t w else acceptsField t o n rest
termination_by entries => (sizeOf t + sizeOf entries, 0)

/-- Every element of an array literal is accepted by the element type. -/
def acceptsAll (e : Ty) : List Value → Bool
  | [] => true
  | v :: vs => accepts e v && acceptsAll e vs
termination_by vs => (sizeOf e + sizeOf vs, 0)

/-- An array literal matches a tuple type pointwise, with equal lengths. -/
def acceptsTuple : List Ty → List Value → Bool
  | [], [] => true
  | t :: ts, v :: vs => accepts t v && acceptsTuple ts vs
  | _, _ => false
termination_by ts vs => (sizeOf ts + sizeOf vs, 0)

end

/-- AnyObject of the source: an interface with only a string index
signature of type unknown. -/
def AnyObject : Ty := .obj [] true

/-- WithUnknown of the source: T & AnyObject. -/
def WithUnknown (t : Ty) : Ty := .inter t AnyObject

/-- TypeScript's built-in Pick on an object shape: the members whose name
is in K. Pick is a homomorphic mapped type, so each kept member keeps its
optional-flag from T. -/
def Pick (T : List Field) (K : List String) : List Field :=
  T.filter (fun f => decide (f.1 ∈ K))

/-- TypeScript's built-in Partial on an object shape: every member of T
becomes optional. -/
def Partial (T : List Field) : List Field :=
  T.map (fun f => (f.1, f.2.1, true))

/-- TypeScript's built-in Omit on an object shape: the members whose name
is not in K, each keeping its optional-flag from T. -/
def Omit (T : List Field) (K : List String) : List Field :=
  T.filter (fun f => decide (f.1 ∉ K))

/-- SomeRequired of the source: Pick T K & Partial T. -/
def SomeRequired (T : List Field) (K : List String) : Ty :=
  .inter (.obj (Pick T K) false) (.obj (Partial T) false)

/-- WithOptional of the source: Pick (Partial T) K & Omit T K. -/
def WithOptional (T : List Field) (K : List String) : Ty :=
  .inter (.obj (Pick (Partial T) K) false) (.obj (Omit T K) false)

/-- Union of a list of types, never for the empty list. -/
def unionList : List Ty → Ty
  | [] => .never
  | t :: ts => .union t (unionList ts)

/-- ObjectValues of the source: the indexed access T[keyof T], the union
of the member value types. (The source applies it to as-const constant
objects, whose members are all required; the model has no undefined, so
the optional-flag does not contribute here.) -/
def ObjectValues (T : List Field) : Ty := unionList (T.map (fun f => f.2.1))

/-- ObjectKeys of the source: keyof T, the set of member names of the
shape, represented as the list of names. -/
def ObjectKeys (T : List Field) : List String := T.map (fun f => f.1)

/-- Brand of the source: the nominal marker type carrying its type
parameter as a tag. -/
def Brand (b : Ty) : Ty := .brand b

/-- Serialized of the source: string & Brand T. -/
def Serialized (t : Ty) : Ty := .inter .str (.brand t)

/-- Unionize of the source: T extends readonly (infer U)[] ? U : never.
A mutable array type T[] matches the pattern (mutable arrays are
assignable to readonly arrays), giving its element type; a tuple type
matches, giving the union of its element types; a conditional type
distributes over a union; every other constructor falls to never.
(Intersection types involving array types are outside the modelled
fragment and fall to never here.) -/
def Unionize : Ty → Ty
  | .union a b => .union (Unionize a) (Unionize b)
  | .arr e => e
  | .tuple ts _ => unionList ts
  | _ => .never

/-- The shape the spec describes for the selective-requirement transform:
members named in K keep the required-ness they have in T, every other
member becomes optional. Stated from the spec's words, to be compared
with SomeRequired. -/
def someRequiredSpec (T : List Field) (K : List String) : List Field :=
  T.map (fun f => if f.1 ∈ K then f else (f.1, f.2.1, true))

/-- The shape the spec describes for the selective-optionality transform:
members named in K become optional, every other member remains as
declared. Stated from the spec's words, to be compared with
WithOptional. -/
def withOptionalSpec (T : List Field) (K : List String) : List Field :=
  T.map (fun f => if f.1 ∈ K then (f.1, f.2.1, true) else f)

/-- No array or tuple type occurs among the union or intersection
constituents of t: the type is not recognized as an ordered sequence
anywhere the conditional in Unionize could see one. -/
def seqFree : Ty → Bool
  | .arr _ => false
  | .tuple _ _ => false
  | .union a b => seqFree a && seqFree b
  | .inter a b => seqFree a && seqFree b
  | _ => true

/-- Whether the top constructor is a union (the one case Unionize
distributes over instead of resolving directly). -/
def isUnionTy : Ty → Bool
  | .union _ _ => true
  | _ => false

theorem Pick_cons (f : Field) (rest : List Field) (K : List String) :
    Pick (f :: rest) K = if f.1 ∈ K then f :: Pick rest K else Pick rest K := by
  by_cases h : f.1 ∈ K <;> simp [Pick, List.filter_cons, h]

theorem Omit_cons (f : Field) (rest : List Field) (K : List String) :
    Omit (f :: rest) K = if f.1 ∈ K then Omit rest K else f :: Omit rest K := by
  by_cases h : f.1 ∈ K <;> simp [Omit, List.filter_cons, h]

theorem Partial_cons (f : Field) (rest : List Field) :
    Partial (f :: rest) = (f.1, f.2.1, true) :: Partial rest := rfl

theorem someRequiredSpec_cons (f : Field) (rest : List Field) (K : List String) :
    someRequiredSpec (f :: rest) K =
      (if f.1 ∈ K then f else (f.1, f.2.1, true)) :: someRequiredSpec rest K := by
  by_cases h : f.1 ∈ K <;> simp [someRequiredSpec, h]

theorem withOptionalSpec_cons (f : Field) (rest : List Field) (K : List String) :
    withOptionalSpec (f :: rest) K =
      (if f.1 ∈ K then (f.1, f.2.1, true) else f) :: withOptionalSpec rest K := by
  by_cases h : f.1 ∈ K <;> simp [withOptionalSpec, h]

/-- A member check with any optional-flag implies the member check with
the flag forced optional: requiredness only strengthens the check. -/
theorem acceptsField_mono (t : Ty) (o : Bool) (n : String) :
    ∀ entries, acceptsField t o n entries = true → acceptsField t true n entries = true
  | [] => by simp [acceptsField]
  | (k, w) :: rest => by
      by_cases h : (k == n) = true
      · simp [acceptsField, h]
      · simp only [acceptsField, h, if_false, Bool.false_eq_true]
        exact acceptsField_mono t o n rest

/-- Assignability side of claim C1: checking the members of Pick T K and
of Partial T against the same entries is checking the members of the
spec's shape for SomeRequired. -/
theorem someRequired_fields (K : List String) (e : List (String × Value)) :
    ∀ T : List Field,
      (acceptsFields (Pick T K) e && acceptsFields (Partial T) e) =
        acceptsFields (someRequiredSpec T K) e
  | [] => by simp [Pick, Partial, someRequiredSpec, acceptsFields]
  | (n, t, o) :: rest => by
      have ih := someRequired_fields K e rest
      by_cases h : n ∈ K
      · rw [Pick_cons, Partial_cons, someRequiredSpec_cons]
        simp only [h, if_true]
        simp only [acceptsFields, ← ih]
        cases hA : acceptsField t o n e
        · simp
        · have hA' := acceptsField_mono t o n e hA
          simp [hA']
      · rw [Pick_cons, Partial_cons, someRequiredSpec_cons]
        simp only [h, if_false]
        simp only [acceptsFields, ← ih]
        cases acceptsField t true n e <;>
          cases acceptsFields (Pick rest K) e <;> simp

/-- Assignability side of claim C2: checking the members of
Pick (Partial T) K and of Omit T K against the same entries is checking
the members of the spec's shape for WithOptional. -/
theorem withOptional_fields (K : List String) (e : List (String × Value)) :
    ∀ T : List Field,
      (acceptsFields (Pick (Partial T) K) e && acceptsFields (Omit T K) e) =
        acceptsFields (withOptionalSpec T K) e
  | [] => by simp [Pick, Partial, Omit, withOptionalSpec, acceptsFields]
  | (n, t, o) :: rest => by
      have ih := withOptional_fields K e rest
      by_cases h : n ∈ K
      · rw [Partial_cons, Pick_cons, Omit_cons, withOptionalSpec_cons]
        simp only [h, if_true]
        simp only [acceptsFields, ← ih, Bool.and_assoc]
      · rw [Partial_cons, Pick_cons, Omit_cons, withOptionalSpec_cons]
        simp only [h, if_false]
        simp only [acceptsFields, ← ih]
        cases acceptsField t o n e <;>
          cases acceptsFields (Pick (Partial rest) K) e <;> simp

theorem Partial_keys (T : List Field) : ObjectKeys (Partial T) = ObjectKeys T := by
  simp [ObjectKeys, Partial, List.map_map, Function.comp]

theorem someRequiredSpec_keys (T : List Field) (K : List String) :
    ObjectKeys (someRequiredSpec T K) = ObjectKeys T := by
  simp only [ObjectKeys, someRequiredSpec, List.map_map]
  apply List.map_congr_left
  intro f _
  by_cases h : f.1 ∈ K <;> simp [h]

theorem withOptionalSpec_keys (T : List Field) (K : List String) :
    ObjectKeys (withOptionalSpec T K) = ObjectKeys T := by
  simp only [ObjectKeys, withOptionalSpec, List.map_map]
  apply List.map_congr_left
  intro f _
  by_cases h : f.1 ∈ K <;> simp [h]

theorem Pick_keys_sub (T : List Field) (K : List String) (x : String) :
    x ∈ ObjectKeys (Pick T K) → x ∈ ObjectKeys T := by
  simp only [ObjectKeys, Pick, List.mem_map, List.mem_filter]
  rintro ⟨f, ⟨hf, _⟩, rfl⟩
  exact ⟨f, hf, rfl⟩

theorem Omit_keys_sub (T : List Field) (K : List String) (x : String) :
    x ∈ ObjectKeys (Omit T K) → x ∈ ObjectKeys T := by
  simp only [ObjectKeys, Omit, List.mem_map, List.mem_filter]
  rintro ⟨f, ⟨hf, _⟩, rfl⟩
  exact ⟨f, hf, rfl⟩

/-- Two targets with the same index-signature status and the same known
member names pass the excess-property check on the same values. -/
theorem freshOk_congr (s t : Ty) (hi : hasIdx s = hasIdx t)
    (hk : ∀ x, x ∈ objKeys s ↔ x ∈ objKeys t) :
    ∀ v, freshOk s v = freshOk t v := by
  intro v
  cases v <;> simp only [freshOk]
  rw [hi]
  have harg : (fun (e : String × Value) => decide (e.1 ∈ objKeys s)) =
      (fun e => decide (e.1 ∈ objKeys t)) := by
    funext e
    exact decide_eq_decide.mpr (hk e.1)
  rw [harg]

theorem someRequired_keys (T : List Field) (K : List String) (x : String) :
    x ∈ objKeys (SomeRequired T K) ↔ x ∈ objKeys (Ty.obj (someRequiredSpec T K) false) := by
  show x ∈ objKeys (.inter (.obj (Pick T K) false) (.obj (Partial T) false)) ↔ _
  simp only [objKeys, List.mem_append]
  show x ∈ ObjectKeys (Pick T K) ∨ x ∈ ObjectKeys (Partial T) ↔
    x ∈ ObjectKeys (someRequiredSpec T K)
  rw [Partial_keys, someRequiredSpec_keys]
  exact ⟨fun h => h.elim (Pick_keys_sub T K x) id, Or.inr⟩

theorem withOptional_keys (T : List Field) (K : List String) (x : String) :
    x ∈ objKeys (WithOptional T K) ↔ x ∈ objKeys (Ty.obj (withOptionalSpec T K) false) := by
  show x ∈ objKeys (.inter (.obj (Pick (Partial T) K) false) (.obj (Omit T K) false)) ↔ _
  simp only [objKeys, List.mem_append]
  show x ∈ ObjectKeys (Pick (Partial T) K) ∨ x ∈ ObjectKeys (Omit T K) ↔
    x ∈ ObjectKeys (withOptionalSpec T K)
  rw [withOptionalSpec_keys]
  constructor
  · rintro (h | h)
    · exact (Partial_keys T) ▸ Pick_keys_sub (Partial T) K x h
    · exact Omit_keys_sub T K x h
  · simp only [ObjectKeys, List.mem_map]
    rintro ⟨f, hf, rfl⟩
    by_cases h : f.1 ∈ K
    · left
      simp only [ObjectKeys, Pick, List.mem_map, List.mem_filter]
      refine ⟨(f.1, f.2.1, true), ⟨?_, by simpa using h⟩, rfl⟩
      simp only [Partial, List.mem_map]
      exact ⟨f, hf, rfl⟩
    · right
      simp only [ObjectKeys, Omit, List.mem_map, List.mem_filter]
      exact ⟨f, ⟨hf, by simpa using h⟩, rfl⟩

/-- SomeRequired T K and the spec's shape for it accept the same values
(claim C1's equivalence, shared by several claims). -/
theorem someRequired_equiv (T : List Field) (K : List String) (v : Value) :
    accepts (SomeRequired T K) v = accepts (Ty.obj (someRequiredSpec T K) false) v := by
  have hfresh := freshOk_congr (SomeRequired T K) (Ty.obj (someRequiredSpec T K) false)
    rfl (someRequired_keys T K) v
  have hassign : assign (SomeRequired T K) v =
      assign (Ty.obj (someRequiredSpec T K) false) v := by
    cases v <;> simp [SomeRequired, assign]
    exact someRequired_fields K _ T
  simp [accepts, hassign, hfresh]

/-- WithOptional T K and the spec's shape for it accept the same values
(claim C2's equivalence). -/
theorem withOptional_equiv (T : List Field) (K : List String) (v : Value) :
    accepts (WithOptional T K) v = accepts (Ty.obj (withOptionalSpec T K) false) v := by
  have hfresh := freshOk_congr (WithOptional T K) (Ty.obj (withOptionalSpec T K) false)
    rfl (withOptional_keys T K) v
  have hassign : assign (WithOptional T K) v =
      assign (Ty.obj (withOptionalSpec T K) false) v := by
    cases v <;> simp [WithOptional, assign]
    exact withOptional_fields K _ T
  simp [accepts, hassign, hfresh]

/-- Selecting every member name leaves the spec's shape for SomeRequired
unchanged. -/
theorem someRequiredSpec_self (T : List Field) :
    someRequiredSpec T (ObjectKeys T) = T := by
  have : ∀ f ∈ T, (if f.1 ∈ ObjectKeys T then f else (f.1, f.2.1, true)) = f := by
    intro f hf
    have : f.1 ∈ ObjectKeys T := by
      simp only [ObjectKeys, List.mem_map]
      exact ⟨f, hf, rfl⟩
    simp [this]
  simpa [someRequiredSpec] using List.map_congr_left this

/-- WithUnknown applied to a closed object shape accepts the same values
as the shape opened with a string index signature of type unknown
(claim C7's equivalence). -/
theorem withUnknown_equiv (T : List Field) (v : Value) :
    accepts (WithUnknown (Ty.obj T false)) v = accepts (Ty.obj T true) v := by
  cases v <;>
    simp [WithUnknown, AnyObject, accepts, assign, freshOk, hasIdx, acceptsFields]

/-- Assignability of a string value to the union of a list of types is
assignability to any one of them. -/
theorem assign_unionList (s : String) :
    ∀ ts : List Ty, assign (unionList ts) (Value.vstr s) =
      ts.any (fun t => assign t (Value.vstr s))
  | [] => by simp [unionList, assign]
  | t :: ts => by
      simp only [unionList, assign, List.any_cons, assign_unionList s ts]

/-- Acceptance of a string value by the union of a list of types is
acceptance by one of them (the excess-property check is trivial on
non-object values). -/
theorem accepts_unionList_vstr (s : String) (ts : List Ty) :
    accepts (unionList ts) (Value.vstr s) = ts.any (fun t => accepts t (Value.vstr s)) := by
  simp [accepts, freshOk, assign_unionList]

/-- Pushing a projection map inside List.any. -/
theorem any_map_snd (p : Ty → Bool) :
    ∀ T : List Field, (T.map (fun f => f.2.1)).any p = T.any (fun f => p f.2.1)
  | [] => rfl
  | f :: rest => by simp [any_map_snd p rest]

/-- On a sequence-free type the distributed conditional in Unionize
assigns no value. -/
theorem assign_Unionize_seqFree :
    ∀ t : Ty, seqFree t = true → ∀ v : Value, assign (Unionize t) v = false
  | .str => by intro _ v; cases v <;> simp [Unionize, assign]
  | .num => by intro _ v; cases v <;> simp [Unionize, assign]
  | .lit s => by intro _ v; cases v <;> simp [Unionize, assign]
  | .unknown => by intro _ v; cases v <;> simp [Unionize, assign]
  | .never => by intro _ v; cases v <;> simp [Unionize, assign]
  | .union a b => by
      intro h v
      simp only [seqFree, Bool.and_eq_true] at h
      simp [Unionize, assign, assign_Unionize_seqFree a h.1 v,
        assign_Unionize_seqFree b h.2 v]
  | .inter a b => by intro _ v; cases v <;> simp [Unionize, assign]
  | .obj fs i => by intro _ v; cases v <;> simp [Unionize, assign]
  | .arr e => by intro h; simp [seqFree] at h
  | .tuple ts r => by intro h; simp [seqFree] at h
  | .brand b => by intro _ v; cases v <;> simp [Unionize, assign]

/-- C1: SomeRequired T K accepts exactly the values of the shape in which
each member named in K keeps the required-ness it has in T and every other
member of T is optional; in particular, over the all-required three-member
shape with members a, b, c and K selecting a, a value populating only a is
accepted, a value populating a and b but omitting c is accepted, and a
value omitting a is rejected. -/
theorem someRequired_matches_spec :
    (∀ (T : List Field) (K : List String) (v : Value),
        accepts (SomeRequired T K) v = accepts (Ty.obj (someRequiredSpec T K) false) v) ∧
      accepts (SomeRequired [("a", .str, false), ("b", .str, false), ("c", .str, false)]
        ["a"]) (.vobj [("a", .vstr "1")]) = true ∧
      accepts (SomeRequired [("a", .str, false), ("b", .str, false), ("c", .str, false)]
        ["a"]) (.vobj [("a", .vstr "1"), ("b", .vstr "2")]) = true ∧
      accepts (SomeRequired [("a", .str, false), ("b", .str, false), ("c", .str, false)]
        ["a"]) (.vobj [("b", .vstr "2"), ("c", .vstr "3")]) = false := by
  refine ⟨someRequired_equiv, ?_, ?_, ?_⟩ <;>
    simp [SomeRequired, Pick, Partial, accepts, assign, acceptsFields, acceptsField,
      freshOk, objKeys, hasIdx]

/-- C2: WithOptional T K accepts exactly the values of the shape in which
each member named in K is optional and every other member of T keeps its
declared required-ness; in particular, over the all-required three-member
shape with members a, b, c and K selecting a, a value omitting a is
accepted, and a value omitting b, or omitting c, is rejected. -/
theorem withOptional_matches_spec :
    (∀ (T : List Field) (K : List String) (v : Value),
        accepts (WithOptional T K) v = accepts (Ty.obj (withOptionalSpec T K) false) v) ∧
      accepts (WithOptional [("a", .str, false), ("b", .str, false), ("c", .str, false)]
        ["a"]) (.vobj [("b", .vstr "2"), ("c", .vstr "3")]) = true ∧
      accepts (WithOptional [("a", .str, false), ("b", .str, false), ("c", .str, false)]
        ["a"]) (.vobj [("a", .vstr "1"), ("c", .vstr "3")]) = false ∧
      accepts (WithOptional [("a", .str, false), ("b", .str, false), ("c", .str, false)]
        ["a"]) (.vobj [("a", .vstr "1"), ("b", .vstr "2")]) = false := by
  refine ⟨withOptional_equiv, ?_, ?_, ?_⟩ <;>
    simp [WithOptional, Pick, Partial, Omit, accepts, assign, acceptsFields, acceptsField,
      freshOk, objKeys, hasIdx]

/-- C3 counterexample: Unionize applied to the plain mutable array type
string[] resolves to string, which accepts the value "hello"; it does not
resolve to never, which accepts nothing. -/
theorem unionize_mutable_array_counterexample :
    accepts (Unionize (Ty.arr Ty.str)) (Value.vstr "hello") = true ∧
      accepts Ty.never (Value.vstr "hello") = false ∧
      Unionize (Ty.arr Ty.str) ≠ Ty.never := by
  refine ⟨by simp [Unionize, accepts, assign, freshOk],
    by simp [accepts, assign, freshOk], fun h => Ty.noConfusion h⟩

/-- C3 amended: Unionize applied to a plain mutable array type resolves to
its element type, not to never: a mutable array type matches the readonly
array pattern of the conditional type. -/
theorem unionize_mutable_array (e : Ty) (v : Value) :
    accepts (Unionize (Ty.arr e)) v = accepts e v := rfl

/-- C4: on every input type with no array or tuple type among its union or
intersection constituents, Unionize resolves to never: syntactically so
when the input is not a union, and in any case the result accepts no
value. -/
theorem unionize_non_sequence (t : Ty) (h : seqFree t = true) :
    (isUnionTy t = false → Unionize t = Ty.never) ∧
      ∀ v : Value, accepts (Unionize t) v = false := by
  constructor
  · intro hu
    cases t
    case union a b => simp [isUnionTy] at hu
    all_goals first
      | rfl
      | simp [seqFree] at h
  · intro v
    simp [accepts, assign_Unionize_seqFree t h v]

/-- Witness for C4 at an object type: it is sequence-free, Unionize sends
it to never, and the result accepts no value. -/
theorem unionize_non_sequence_witness :
    seqFree (Ty.obj [("a", Ty.str, false)] false) = true ∧
      Unionize (Ty.obj [("a", Ty.str, false)] false) = Ty.never ∧
      accepts (Unionize (Ty.obj [("a", Ty.str, false)] false)) (Value.vstr "x") = false :=
  ⟨rfl, (unionize_non_sequence (Ty.obj [("a", Ty.str, false)] false) rfl).1 rfl,
    (unionize_non_sequence (Ty.obj [("a", Ty.str, false)] false) rfl).2 (Value.vstr "x")⟩

/-- C5 counterexample: with T declaring its only member a as optional and
K selecting a, the value omitting a is accepted by SomeRequired T K — the
selected member is not pinned required, contrary to the claim. -/
theorem someRequired_optional_member_counterexample :
    accepts (SomeRequired [("a", Ty.str, true)] ["a"]) (Value.vobj []) = true := by
  simp [SomeRequired, Pick, Partial, accepts, assign, acceptsFields, acceptsField,
    freshOk, objKeys, hasIdx]

/-- C5 amended: SomeRequired T K behaves as the shape that is all-optional
except that each member named in K is pinned back to the required-ness it
has in T — an optional selected member stays optional rather than becoming
required, while its type is still enforced when it is present. -/
theorem someRequired_keeps_declared_requiredness :
    (∀ (T : List Field) (K : List String) (v : Value),
        accepts (SomeRequired T K) v = accepts (Ty.obj (someRequiredSpec T K) false) v) ∧
      accepts (SomeRequired [("a", Ty.str, true)] ["a"])
        (.vobj [("a", .vstr "x")]) = true ∧
      accepts (SomeRequired [("a", Ty.str, true)] ["a"])
        (.vobj [("a", .vnum 1)]) = false := by
  refine ⟨someRequired_equiv, ?_, ?_⟩ <;>
    simp [SomeRequired, Pick, Partial, accepts, assign, acceptsFields, acceptsField,
      freshOk, objKeys, hasIdx]

/-- C6: a plain untagged string is rejected where Serialized T is
required, while any value of type Serialized T is accepted where the
plain string type is required. -/
theorem serialized_nominal_tagging :
    (∀ (T : Ty) (s : String), accepts (Serialized T) (Value.vstr s) = false) ∧
      ∀ (T : Ty) (v : Value), accepts (Serialized T) v = true →
        accepts Ty.str v = true := by
  constructor
  · intro T s
    simp [Serialized, accepts, assign, freshOk]
  · intro T v h
    cases v <;> simp_all [Serialized, accepts, assign, freshOk]

/-- Witness for C6: a branded string value inhabits Serialized num in the
model, and the theorem carries it to acceptance at type string. -/
theorem serialized_nominal_tagging_witness :
    accepts (Serialized Ty.num) (Value.vbranded "x" Ty.num) = true ∧
      accepts Ty.str (Value.vbranded "x" Ty.num) = true := by
  have h : accepts (Serialized Ty.num) (Value.vbranded "x" Ty.num) = true := by
    simp [Serialized, accepts, assign, freshOk, tyBeq]
  exact ⟨h, serialized_nominal_tagging.2 Ty.num (Value.vbranded "x" Ty.num) h⟩

/-- C7: WithUnknown T accepts exactly the values carrying all of T's
declared members plus any additional string-keyed members; in particular,
over the one-member shape requiring foo of type string, the value with foo
and an extra member baz is accepted and the value missing foo is
rejected. -/
theorem withUnknown_open_shape :
    (∀ (T : List Field) (v : Value),
        accepts (WithUnknown (Ty.obj T false)) v = accepts (Ty.obj T true) v) ∧
      accepts (WithUnknown (Ty.obj [("foo", .str, false)] false))
        (.vobj [("foo", .vstr "bar"), ("baz", .vnum 123)]) = true ∧
      accepts (WithUnknown (Ty.obj [("foo", .str, false)] false))
        (.vobj [("baz", .vnum 123)]) = false := by
  refine ⟨withUnknown_equiv, ?_, ?_⟩ <;>
    simp [WithUnknown, AnyObject, accepts, assign, acceptsFields, acceptsField,
      freshOk, objKeys, hasIdx]

/-- C8: ObjectValues T is the union of the member value types: a string
value is accepted by it exactly when some member's type accepts the value;
in particular, for the constant object with INFO mapping to the literal
"info" and WARN to "warn", the union accepts "info" and rejects
"debug". -/
theorem objectValues_value_union :
    (∀ (T : List Field) (s : String),
        accepts (ObjectValues T) (Value.vstr s) =
          T.any (fun f => accepts f.2.1 (Value.vstr s))) ∧
      accepts (ObjectValues [("INFO", .lit "info", false), ("WARN", .lit "warn", false)])
        (.vstr "info") = true ∧
      accepts (ObjectValues [("INFO", .lit "info", false), ("WARN", .lit "warn", false)])
        (.vstr "debug") = false := by
  refine ⟨?_, ?_, ?_⟩
  · intro T s
    rw [ObjectValues, accepts_unionList_vstr, any_map_snd]
  · simp [ObjectValues, unionList, accepts, assign, freshOk]
  · simp [ObjectValues, unionList, accepts, assign, freshOk]

/-- C9: Unionize applied to a tuple type yields the union of its element
types; in particular, for the readonly literal tuple of "foo", "bar",
"baz", the result accepts "bar" and rejects "qux". -/
theorem unionize_tuple_union :
    (∀ (ts : List Ty) (ro : Bool) (v : Value),
        accepts (Unionize (Ty.tuple ts ro)) v = accepts (unionList ts) v) ∧
      accepts (Unionize (Ty.tuple [.lit "foo", .lit "bar", .lit "baz"] true))
        (.vstr "bar") = true ∧
      accepts (Unionize (Ty.tuple [.lit "foo", .lit "bar", .lit "baz"] true))
        (.vstr "qux") = false := by
  refine ⟨fun ts ro v => rfl, ?_, ?_⟩ <;>
    simp [Unionize, unionList, accepts, assign, freshOk]

/-- C10: selecting every member name is the identity transformation:
SomeRequired T (keyof T) accepts exactly the values T itself accepts. -/
theorem someRequired_all_keys_id (T : List Field) (v : Value) :
    accepts (SomeRequired T (ObjectKeys T)) v = accepts (Ty.obj T false) v := by
  rw [someRequired_equiv, someRequiredSpec_self]

end TsUtils
